import Mathlib

/-! Verification of the dmgr data-source core (src/dmgr/datasources.py):
the segment_axis framing engine, the AggregatedDataSource cumulative-offset
index translation and sorted batched dispatch, and the ContextDataSource
zero-padded context windows with argsort-based order restoration.

Rows are abstracted: a feature row has some type with a zero (the zero row
produced by numpy zeros_like for the boundary filler), a target row an
arbitrary inhabited type.  The preprocessing chain is an external
collaborator outside the core per the specification, and is modelled as
the identity (an empty chain).  Python asserts are modelled as failures,
as they are observable exceptions of the source. -/

namespace Dmgr

/-- Errors raised by segment_axis: the two parameter checks, failed
internal assert statements, the insufficient-data check, and the numpy
broadcast failure that wrap mode hits when the required extension is
longer than the signal (all surface as exceptions in the source). -/
inductive SegError where
  | hopNotPositive
  | frameNotPositive
  | assertFailed
  | insufficientData
  | broadcast
  deriving DecidableEq, Repr

/-- Edge policy of segment_axis (parameter end). -/
inductive EndPolicy where
  | cut
  | pad
  | wrap
  deriving DecidableEq, Repr

/-- Errors raised while constructing a ContextDataSource: the parent
shape assert, a segment_axis error, or the final count assert. -/
inductive CtxError where
  | shapeMismatch
  | seg (e : SegError)
  | assertFailed
  deriving DecidableEq, Repr

/-- Python (x or d) for an optional nonnegative integer: None and 0 are
falsy and give the default.  Used by the slice branches
(item.start or 0, item.stop or self.n_data, item.step or 1) and by the
constructor line self.step = step or 1. -/
def pyOr (x : Option Nat) (d : Nat) : Nat :=
  match x with
  | none => d
  | some v => if v = 0 then d else v

/-- Python xs[start:stop] for nonnegative bounds (None leaves the bound
open). -/
def pySlice (xs : List α) (start stop : Option Nat) : List α :=
  (xs.take (stop.getD xs.length)).drop (start.getD 0)

/-- Python range(a, b, s) for s at least 1. -/
def pyRange (a b s : Nat) : List Nat :=
  (List.range ((b - a + s - 1) / s)).map (fun i => a + i * s)

/-- numpy searchsorted with side left on a sorted list: the insertion
point is the count of elements strictly below v. -/
def searchsortedLeft (xs : List Nat) (v : Nat) : Nat :=
  xs.countP (fun x => decide (x < v))

/-- numpy searchsorted with side right on a sorted list: the insertion
point is the count of elements not exceeding v. -/
def searchsortedRight (xs : List Nat) (v : Nat) : Nat :=
  xs.countP (fun x => decide (x ≤ v))

/-- numpy cumsum on a list of naturals. -/
def cumsum (xs : List Nat) : List Nat :=
  (List.scanl (· + ·) 0 xs).tail

/-- numpy argsort: the indices of xs ordered by the value they point at.
insertionSort fixes one admissible tie-breaking; numpy leaves ties
unspecified, and no property proved below depends on the tie-breaking. -/
def argsort (xs : List Nat) : List Nat :=
  (List.range xs.length).insertionSort (fun i j => xs.getD i 0 ≤ xs.getD j 0)

/-- numpy vstack: concatenates a nonempty list of row batches and rejects
an empty one (ValueError: need at least one array to concatenate). -/
def vstack (ls : List (List ρ)) : Option (List ρ) :=
  if ls.isEmpty then none else some ls.flatten

/-- itertools.groupby with a key function: maximal runs of consecutive
elements sharing a key, each run tagged with its key (built by a
structural right fold, which yields the same runs). -/
def groupByKey (key : γ → Nat) : List γ → List (Nat × List γ)
  | [] => []
  | a :: rest =>
    match groupByKey key rest with
    | [] => [(key a, [a])]
    | (k, grp) :: gs =>
      if key a = k then (k, a :: grp) :: gs
      else (key a, [a]) :: (k, grp) :: gs

/-- Lengths computed by segment_axis for an input that does not divide
evenly: the smallest framable length not below L (round_up in the
source). -/
def roundUpLen (length frameSize hopSize : Nat) : Nat :=
  if frameSize < length then frameSize + (1 + (length - frameSize) / hopSize) * hopSize
  else frameSize

/-- The largest framable length not above L (round_down in the source). -/
def roundDownLen (length frameSize hopSize : Nat) : Nat :=
  if frameSize < length then frameSize + ((length - frameSize) / hopSize) * hopSize
  else 0

/-- The strided frame view built at the end of segment_axis: frame i is
signal[i * hop : i * hop + frame], and there are
1 + (length - frame) / hop frames. -/
def frameList (signal : List α) (frameSize hopSize : Nat) : List (List α) :=
  (List.range (1 + (signal.length - frameSize) / hopSize)).map
    (fun i => (signal.drop (i * hopSize)).take frameSize)

/-- Edge handling of segment_axis: when the length does not divide evenly
into frames, truncate (cut), extend with a constant (pad) or extend with a
copy of the start of the array (wrap).  The two assert statements of the
source are modelled as failures; the wrap assignment
y[length:] = signal[:round_up - length] follows numpy broadcasting, which
also accepts a length-1 source. -/
def segmentAxisEdge (signal : List α) (frameSize hopSize : Nat) (pol : EndPolicy)
    (endValue : α) : Except SegError (List α) :=
  let length := signal.length
  if length < frameSize ∨ (length - frameSize) % hopSize ≠ 0 then
    let ru := roundUpLen length frameSize hopSize
    let rd := roundDownLen length frameSize hopSize
    if ¬ (rd < length ∧ length < ru) then .error .assertFailed
    else if ¬ (ru = rd + hopSize ∨ (ru = frameSize ∧ rd = 0)) then .error .assertFailed
    else
      match pol with
      | .cut => .ok (signal.take rd)
      | .pad => .ok (signal ++ List.replicate (ru - length) endValue)
      | .wrap =>
        let src := signal.take (ru - length)
        if src.length = ru - length then .ok (signal ++ src)
        else if src.length = 1 then
          .ok (signal ++ List.replicate (ru - length) (src.getD 0 endValue))
        else .error .broadcast
  else .ok signal

/-- segment_axis along axis 0: parameter checks, edge handling, the
emptiness check (Not enough data points to segment array in cut mode),
the two final assert statements, and the strided frame view. -/
def segmentAxis (signal : List α) (frameSize hopSize : Nat) (pol : EndPolicy)
    (endValue : α) : Except SegError (List (List α)) :=
  if hopSize = 0 then .error .hopNotPositive
  else if frameSize = 0 then .error .frameNotPositive
  else
    match segmentAxisEdge signal frameSize hopSize pol endValue with
    | .error e => .error e
    | .ok signal2 =>
      if signal2.length = 0 then .error .insufficientData
      else if ¬ (frameSize ≤ signal2.length ∧ (signal2.length - frameSize) % hopSize = 0) then
        .error .assertFailed
      else .ok (frameList signal2 frameSize hopSize)

/-- A paired feature/target array (the DataSource leaf).  The
preprocessing chain is outside the core and modelled as the identity. -/
structure DataSource (α β : Type) where
  data : List α
  targets : List β
  deriving DecidableEq, Repr

instance : Inhabited (DataSource α β) := ⟨⟨[], []⟩⟩

/-- List read of a plain data source: numpy fancy indexing gathers the
rows in the order of the index list, verbatim. -/
def DataSource.getListRead [Inhabited α] [Inhabited β] (d : DataSource α β)
    (idxs : List Nat) : List α × List β :=
  (idxs.map (fun i => d.data.getD i default), idxs.map (fun i => d.targets.getD i default))

/-- An ordered collection of data sources addressed through one global
index space (AggregatedDataSource). -/
structure AggDataSource (α β : Type) where
  sources : List (DataSource α β)
  deriving DecidableEq, Repr

/-- self._ds_ends: cumsum of [0] plus the component lengths. -/
def AggDataSource.dsEnds (a : AggDataSource α β) : List Nat :=
  cumsum (0 :: a.sources.map (fun d => d.data.length))

/-- Total sample count (property n_data): the sum of component counts. -/
def AggDataSource.nData (a : AggDataSource α β) : Nat :=
  (a.sources.map (fun d => d.data.length)).sum

/-- AggregatedDataSource._to_ds_idx: rightmost offset not exceeding idx
(searchsorted side right minus one) and the local remainder. -/
def AggDataSource.toDsIdx (a : AggDataSource α β) (idx : Nat) : Nat × Nat :=
  let dsIdx := searchsortedRight a.dsEnds idx - 1
  (dsIdx, idx - a.dsEnds.getD dsIdx 0)

/-- List branch of AggregatedDataSource.__getitem__: item.sort() sorts the
caller's list in place, the sorted indices are translated, grouped into
consecutive equal-component runs, read per group, and stacked.  The result
carries the post-call aggregation state, the post-call contents of the
caller's list, and the stacked batches (with numpy vstack failing on an
empty batch list). -/
def AggDataSource.getListRead [Inhabited α] [Inhabited β] (a : AggDataSource α β)
    (item : List Nat) : AggDataSource α β × List Nat × Option (List α × List β) :=
  let sorted := item.insertionSort (· ≤ ·)
  let pairs := sorted.map a.toDsIdx
  let groups := groupByKey Prod.fst pairs
  let dParts := groups.map
    (fun g => ((a.sources.getD g.1 default).getListRead (g.2.map Prod.snd)).1)
  let tParts := groups.map
    (fun g => ((a.sources.getD g.1 default).getListRead (g.2.map Prod.snd)).2)
  (a, sorted,
    match vstack dParts, vstack tParts with
    | some d, some t => some (d, t)
    | _, _ => none)

/-- Slice branch of AggregatedDataSource.__getitem__: materialize
range(item.start or 0, item.stop or self.n_data, item.step or 1) and
delegate to the list read. -/
def AggDataSource.getSlice [Inhabited α] [Inhabited β] (a : AggDataSource α β)
    (start stop step : Option Nat) : AggDataSource α β × List Nat × Option (List α × List β) :=
  a.getListRead (pyRange (pyOr start 0) (pyOr stop a.nData) (pyOr step 1))

/-- Context-window set over one backing dataset (ContextDataSource):
interior frames from segment_axis, eagerly built zero-padded head and
tail buffers, the unscaled backing sample count, and the step. -/
structure ContextDataSource (α β : Type) where
  step : Nat
  contextSize : Nat
  frames : List (List α)
  nData : Nat
  targets : List β
  beginData : List (List α)
  endData : List (List α)
  deriving DecidableEq, Repr

/-- self._begin_data: window i (for i below r) stacks r - i zero filler
rows and then the first i + r + 1 samples of the backing array. -/
def mkBeginData [Zero α] (data : List α) (contextSize : Nat) : List (List α) :=
  (List.range contextSize).map
    (fun i => List.replicate (contextSize - i) (0 : α) ++ data.take (i + contextSize + 1))

/-- self._end_data: built for i = r - 1 down to 0; the entry for i stacks
the last r + i + 1 samples of the backing array and then r - i zero
filler rows. -/
def mkEndData [Zero α] (data : List α) (contextSize : Nat) : List (List α) :=
  (List.range contextSize).reverse.map
    (fun i => data.drop (data.length - contextSize - i - 1) ++
      List.replicate (contextSize - i) (0 : α))

/-- ContextDataSource.__init__: the parent shape assert and sub-range
slicing, the interior frames from segment_axis over the sliced data with
frame 1 + 2r and hop 1 in cut mode, the boundary buffers built from the
original backing array, and the final count assert.  Note the source
slices the interior input but counts and pads from the unsliced array. -/
def mkContextDataSource [Zero α] (data : List α) (targets : List β) (contextSize : Nat)
    (start stop step : Option Nat) : Except CtxError (ContextDataSource α β) :=
  if data.length ≠ targets.length then .error .shapeMismatch
  else
    match segmentAxis (pySlice data start stop) (1 + 2 * contextSize) 1 .cut 0 with
    | .error e => .error (.seg e)
    | .ok fr =>
      let bD := mkBeginData data contextSize
      let eD := mkEndData data contextSize
      if data.length = fr.length + bD.length + eD.length then
        .ok { step := pyOr step 1
              contextSize := contextSize
              frames := fr
              nData := data.length
              targets := pySlice targets start stop
              beginData := bD
              endData := eD }
      else .error .assertFailed

/-- The window the scalar branch of ContextDataSource.__getitem__ selects
for unscaled index u: head buffer below r, tail buffer from
self._n_data - r on, interior frame u - r otherwise. -/
def ContextDataSource.windowAt (c : ContextDataSource α β) (u : Nat) : List α :=
  if u < c.contextSize then c.beginData.getD u []
  else if c.nData - c.contextSize ≤ u then
    c.endData.getD (u + c.contextSize - c.nData) []
  else c.frames.getD (u - c.contextSize) []

/-- Target row at unscaled index u (self._targets[item]). -/
def ContextDataSource.targetAt [Inhabited β] (c : ContextDataSource α β) (u : Nat) : β :=
  c.targets.getD u default

/-- Scalar branch of ContextDataSource.__getitem__: scale the logical
index by step and dispatch on the unscaled address regions. -/
def ContextDataSource.getScalar [Inhabited β] (c : ContextDataSource α β) (idx : Nat) :
    List α × β :=
  (c.windowAt (idx * c.step), c.targetAt (idx * c.step))

/-- List branch of ContextDataSource.__getitem__: scale, argsort, split
the sorted unscaled indices at the head and tail boundaries with two
binary searches, gather each nonempty region in one batch, stack, and
apply the inverse of the sort permutation to restore the caller's
order. -/
def ContextDataSource.getList [Inhabited β] (c : ContextDataSource α β)
    (item : List Nat) : Option (List (List α) × List β) :=
  let scaled := item.map (fun i => i * c.step)
  let sortIdxs := argsort scaled
  let revertIdxs := argsort sortIdxs
  let sorted := sortIdxs.map (fun i => scaled.getD i 0)
  let gdBegin := searchsortedLeft sorted c.contextSize
  let gdEnd := searchsortedRight sorted (c.nData - c.contextSize - 1)
  let dParts : List (List (List α)) :=
    (if 0 < gdBegin then
      [(sorted.take gdBegin).map (fun u => c.beginData.getD u [])] else []) ++
    (if gdBegin < gdEnd then
      [((sorted.take gdEnd).drop gdBegin).map (fun u => c.frames.getD (u - c.contextSize) [])]
     else []) ++
    (if gdEnd < sorted.length then
      [(sorted.drop gdEnd).map (fun u => c.endData.getD (u + c.contextSize - c.nData) [])]
     else [])
  let tParts : List (List β) :=
    (if 0 < gdBegin then
      [(sorted.take gdBegin).map (fun u => c.targets.getD u default)] else []) ++
    (if gdBegin < gdEnd then
      [((sorted.take gdEnd).drop gdBegin).map (fun u => c.targets.getD u default)] else []) ++
    (if gdEnd < sorted.length then
      [(sorted.drop gdEnd).map (fun u => c.targets.getD u default)] else [])
  match vstack dParts, vstack tParts with
  | some d, some t =>
    some (revertIdxs.map (fun j => d.getD j []), revertIdxs.map (fun j => t.getD j default))
  | _, _ => none

/-- Length the cut policy finally frames: L itself when L divides evenly,
otherwise round_down, the largest length dividing into full frames (the
L_final of the specification). -/
def cutFinalLen (length frameSize hopSize : Nat) : Nat :=
  if (length - frameSize) % hopSize = 0 then length
  else roundDownLen length frameSize hopSize

/-- Logical sample count of a context source (property n_data):
self._n_data / self.step with Python 2 floor division. -/
def ContextDataSource.nDataScaled (c : ContextDataSource α β) : Nat :=
  c.nData / c.step

/-- Slice branch of ContextDataSource.__getitem__: materialize
range(item.start or 0, item.stop or self.n_data, item.step or 1) and
delegate to the list read. -/
def ContextDataSource.getSlice [Inhabited β] (c : ContextDataSource α β)
    (start stop step : Option Nat) : Option (List (List α) × List β) :=
  c.getList (pyRange (pyOr start 0) (pyOr stop c.nDataScaled) (pyOr step 1))

/-- Feature row of an aggregation at global index g, as its index
translation addresses it: the owning component's data row at the local
index. -/
def AggDataSource.rowData [Inhabited α] (a : AggDataSource α β) (g : Nat) : α :=
  (a.sources.getD (a.toDsIdx g).1 default).data.getD (a.toDsIdx g).2 default

/-- Target row of an aggregation at global index g. -/
def AggDataSource.rowTarget [Inhabited β] (a : AggDataSource α β) (g : Nat) : β :=
  (a.sources.getD (a.toDsIdx g).1 default).targets.getD (a.toDsIdx g).2 default

/-- Backing array of the concrete scenarios of the specification. -/
def exSignal : List Int := [0, 1, 2, 3, 4, 5, 6, 7, 8, 9]

/-- Aggregation of the concrete scenario: components of 3 and 5
samples. -/
def exAgg : AggDataSource Int Int :=
  ⟨[⟨[10, 20, 30], [110, 120, 130]⟩,
    ⟨[40, 50, 60, 70, 80], [140, 150, 160, 170, 180]⟩]⟩

/-- Context source of the concrete scenario: backing array [0..9],
radius 2, step 1 (the fields mkContextDataSource produces for it). -/
def exCtx : ContextDataSource Int Int :=
  { step := 1
    contextSize := 2
    frames := frameList exSignal 5 1
    nData := 10
    targets := exSignal
    beginData := mkBeginData exSignal 2
    endData := mkEndData exSignal 2 }

/-! Arithmetic facts about the round_up and round_down lengths, matching
the assert statements of segment_axis. -/

theorem frameList_length (signal : List α) (frameSize hopSize : Nat) :
    (frameList signal frameSize hopSize).length =
      1 + (signal.length - frameSize) / hopSize := by
  simp [frameList]

theorem round_facts (L F H : Nat) (hH : H ≠ 0) (hFL : F < L)
    (hrem : (L - F) % H ≠ 0) :
    roundDownLen L F H < L ∧ L < roundUpLen L F H ∧
    roundUpLen L F H = roundDownLen L F H + H ∧ F ≤ roundDownLen L F H ∧
    (roundDownLen L F H - F) % H = 0 ∧ (roundUpLen L F H - F) % H = 0 := by
  have hdm := Nat.div_add_mod (L - F) H
  have hlt : (L - F) % H < H := Nat.mod_lt _ (Nat.pos_of_ne_zero hH)
  have hone : (1 + (L - F) / H) * H = H + ((L - F) / H) * H := by
    rw [Nat.add_mul, Nat.one_mul]
  have hmodd : (((L - F) / H) * H) % H = 0 := Nat.mul_mod_left _ _
  have hmodu : ((1 + (L - F) / H) * H) % H = 0 := Nat.mul_mod_left _ _
  rw [Nat.mul_comm H ((L - F) / H)] at hdm
  simp only [roundDownLen, roundUpLen, if_pos hFL]
  refine ⟨by omega, by omega, by omega, by omega, ?_, ?_⟩
  · rw [Nat.add_sub_cancel_left]; exact hmodd
  · rw [Nat.add_sub_cancel_left]; exact hmodu

theorem not_lt_of_mod_ne (L F H : Nat) (hL : F ≤ L) (hrem : (L - F) % H ≠ 0) :
    F < L := by
  rcases Nat.lt_or_ge F L with h | h
  · exact h
  · exfalso
    have hLF : L = F := by omega
    rw [hLF] at hrem
    simp at hrem

theorem segmentAxisEdge_cut_ok (sig : List α) (F H : Nat) (v : α)
    (hH : H ≠ 0) (hL : F ≤ sig.length) :
    segmentAxisEdge sig F H .cut v = .ok (sig.take (cutFinalLen sig.length F H)) := by
  by_cases hrem : (sig.length - F) % H = 0
  · have hnlt : ¬ sig.length < F := by omega
    simp [segmentAxisEdge, hrem, hnlt, cutFinalLen, List.take_length]
  · have hFL : F < sig.length := not_lt_of_mod_ne sig.length F H hL hrem
    obtain ⟨h1, h2, h3, _, _, _⟩ := round_facts sig.length F H hH hFL hrem
    have hc1 : sig.length < F ∨ (sig.length - F) % H ≠ 0 := Or.inr hrem
    have ha1 : ¬ ¬ (roundDownLen sig.length F H < sig.length ∧
        sig.length < roundUpLen sig.length F H) := not_not_intro ⟨h1, h2⟩
    have ha2 : ¬ ¬ (roundUpLen sig.length F H = roundDownLen sig.length F H + H ∨
        (roundUpLen sig.length F H = F ∧ roundDownLen sig.length F H = 0)) :=
      not_not_intro (Or.inl h3)
    simp only [segmentAxisEdge]
    rw [if_pos hc1, if_neg ha1, if_neg ha2]
    simp only [cutFinalLen, if_neg hrem]

theorem segmentAxis_assemble (sig s2 : List α) (F H : Nat) (pol : EndPolicy) (v : α)
    (hh : H ≠ 0) (hf : F ≠ 0)
    (hedge : segmentAxisEdge sig F H pol v = .ok s2)
    (hlen : F ≤ s2.length) (hmod : (s2.length - F) % H = 0) :
    segmentAxis sig F H pol v = .ok (frameList s2 F H) := by
  have hne : ¬ s2.length = 0 := by omega
  have hpos : ¬ ¬ (F ≤ s2.length ∧ (s2.length - F) % H = 0) :=
    not_not_intro ⟨hlen, hmod⟩
  simp only [segmentAxis, if_neg hh, if_neg hf, hedge, if_neg hne, if_neg hpos]

theorem segmentAxis_cut_ok (sig : List α) (F H : Nat) (v : α)
    (hh : H ≠ 0) (hf : F ≠ 0) (hL : F ≤ sig.length) :
    segmentAxis sig F H .cut v =
      .ok (frameList (sig.take (cutFinalLen sig.length F H)) F H) := by
  have hedge := segmentAxisEdge_cut_ok sig F H v hh hL
  by_cases hrem : (sig.length - F) % H = 0
  · have hcf : cutFinalLen sig.length F H = sig.length := by
      simp [cutFinalLen, hrem]
    have hlen2 : (sig.take (cutFinalLen sig.length F H)).length = sig.length := by
      rw [hcf, List.take_length]
    refine segmentAxis_assemble sig _ F H .cut v hh hf hedge ?_ ?_
    · rw [hlen2]; exact hL
    · rw [hlen2]; exact hrem
  · have hFL : F < sig.length := not_lt_of_mod_ne sig.length F H hL hrem
    obtain ⟨h1, h2, h3, h4, h5, h6⟩ := round_facts sig.length F H hh hFL hrem
    have hcf : cutFinalLen sig.length F H = roundDownLen sig.length F H := by
      simp [cutFinalLen, hrem]
    have hlen2 : (sig.take (cutFinalLen sig.length F H)).length =
        roundDownLen sig.length F H := by
      rw [hcf, List.length_take]
      omega
    refine segmentAxis_assemble sig _ F H .cut v hh hf hedge ?_ ?_
    · rw [hlen2]; omega
    · rw [hlen2]; exact h5

/-- C3: for the framing engine with cut policy, every input of length
L ≥ F with positive frame and hop sizes yields exactly
1 + (L_final - F) / H frames, the strided windows of the input truncated
to L_final, the largest length dividing into full frames. -/
theorem claim_c3_cut_frame_count (sig : List Int) (F H : Nat) (v : Int)
    (hh : H ≠ 0) (hf : F ≠ 0) (hL : F ≤ sig.length) :
    segmentAxis sig F H .cut v =
      .ok (frameList (sig.take (cutFinalLen sig.length F H)) F H) ∧
    (frameList (sig.take (cutFinalLen sig.length F H)) F H).length =
      1 + (cutFinalLen sig.length F H - F) / H := by
  refine ⟨segmentAxis_cut_ok sig F H v hh hf hL, ?_⟩
  have hcf : cutFinalLen sig.length F H ≤ sig.length := by
    by_cases hrem : (sig.length - F) % H = 0
    · simp [cutFinalLen, hrem]
    · have hFL : F < sig.length := not_lt_of_mod_ne sig.length F H hL hrem
      obtain ⟨h1, _⟩ := round_facts sig.length F H hh hFL hrem
      simp only [cutFinalLen, if_neg hrem]
      omega
  have hmin : cutFinalLen sig.length F H ⊓ sig.length = cutFinalLen sig.length F H :=
    inf_eq_left.mpr hcf
  rw [frameList_length, List.length_take, hmin]

/-- C3 witness: framing [0..9] with frame size 4, hop size 2 and cut
policy yields exactly the four frames of the specification scenario. -/
theorem claim_c3_witness :
    ((2 : Nat) ≠ 0 ∧ (4 : Nat) ≠ 0 ∧ 4 ≤ exSignal.length) ∧
    segmentAxis exSignal 4 2 .cut 0 =
      .ok [[0, 1, 2, 3], [2, 3, 4, 5], [4, 5, 6, 7], [6, 7, 8, 9]] ∧
    (frameList (exSignal.take (cutFinalLen exSignal.length 4 2)) 4 2).length = 4 := by
  have h := claim_c3_cut_frame_count exSignal 4 2 0 (by decide) (by decide) (by decide)
  exact ⟨⟨by decide, by decide, by decide⟩, h.1.trans (by rfl), h.2.trans (by rfl)⟩

theorem roundUp_bounds (L F H : Nat) (hH : H ≠ 0)
    (hnd : L < F ∨ (L - F) % H ≠ 0) :
    F ≤ roundUpLen L F H ∧ (roundUpLen L F H - F) % H = 0 := by
  by_cases hFL : F < L
  · have hrem : (L - F) % H ≠ 0 := by
      rcases hnd with h | h
      · omega
      · exact h
    obtain ⟨_, _, h3, h4, _, h6⟩ := round_facts L F H hH hFL hrem
    exact ⟨by omega, h6⟩
  · simp [roundUpLen, hFL]

theorem segmentAxisEdge_wrap_ok (sig : List α) (F H : Nat) (v : α)
    (hH : H ≠ 0) (hF : F ≠ 0)
    (hnd : sig.length < F ∨ (sig.length - F) % H ≠ 0)
    (hfit : roundUpLen sig.length F H - sig.length ≤ sig.length) :
    segmentAxisEdge sig F H .wrap v =
      .ok (sig ++ sig.take (roundUpLen sig.length F H - sig.length)) ∧
    sig.length < roundUpLen sig.length F H := by
  have htklen : (sig.take (roundUpLen sig.length F H - sig.length)).length =
      roundUpLen sig.length F H - sig.length := by
    rw [List.length_take]
    omega
  by_cases hFL : F < sig.length
  · have hrem : (sig.length - F) % H ≠ 0 := by
      rcases hnd with h | h
      · omega
      · exact h
    obtain ⟨h1, h2, h3, _, _, _⟩ := round_facts sig.length F H hH hFL hrem
    have hc1 : sig.length < F ∨ (sig.length - F) % H ≠ 0 := Or.inr hrem
    have ha1 : ¬ ¬ (roundDownLen sig.length F H < sig.length ∧
        sig.length < roundUpLen sig.length F H) := not_not_intro ⟨h1, h2⟩
    have ha2 : ¬ ¬ (roundUpLen sig.length F H = roundDownLen sig.length F H + H ∨
        (roundUpLen sig.length F H = F ∧ roundDownLen sig.length F H = 0)) :=
      not_not_intro (Or.inl h3)
    refine ⟨?_, h2⟩
    simp only [segmentAxisEdge]
    rw [if_pos hc1, if_neg ha1, if_neg ha2, if_pos htklen]
  · have hru : roundUpLen sig.length F H = F := by simp [roundUpLen, hFL]
    have hrd : roundDownLen sig.length F H = 0 := by simp [roundDownLen, hFL]
    have hLF : sig.length < F := by
      rcases Nat.lt_or_ge sig.length F with h | h
      · exact h
      · exfalso
        have hLE : sig.length = F := by omega
        rcases hnd with hx | hx
        · omega
        · rw [hLE] at hx
          simp at hx
    have h0 : 0 < sig.length := by
      rcases Nat.eq_zero_or_pos sig.length with h | h
      · exfalso
        rw [hru, h] at hfit
        omega
      · exact h
    have ha1 : ¬ ¬ (roundDownLen sig.length F H < sig.length ∧
        sig.length < roundUpLen sig.length F H) :=
      not_not_intro (by rw [hru, hrd]; exact ⟨h0, hLF⟩)
    have ha2 : ¬ ¬ (roundUpLen sig.length F H = roundDownLen sig.length F H + H ∨
        (roundUpLen sig.length F H = F ∧ roundDownLen sig.length F H = 0)) :=
      not_not_intro (Or.inr ⟨hru, hrd⟩)
    refine ⟨?_, by omega⟩
    simp only [segmentAxisEdge]
    rw [if_pos hnd, if_neg ha1, if_neg ha2, if_pos htklen]

/-- C6 (amended): for the framing engine with wrap policy, whenever the
input length L does not divide evenly into frames and the required
extension round_up - L fits inside the input (round_up - L ≤ L), the
framed signal is the input extended to length round_up by a copy of the
input's prefix of length round_up - L.  (Outside this guard the claim's
prefix of length round_up - L does not exist and the behavior differs
by input: a single-sample input is broadcast across the extension,
while a longer one fails with a numpy broadcast error — see the
counterexample and segmentAxis_wrap_singleton_broadcast.) -/
theorem claim_c6_wrap_prefix (sig : List Int) (F H : Nat) (v : Int)
    (hh : H ≠ 0) (hf : F ≠ 0)
    (hnd : sig.length < F ∨ (sig.length - F) % H ≠ 0)
    (hfit : roundUpLen sig.length F H - sig.length ≤ sig.length) :
    segmentAxis sig F H .wrap v =
      .ok (frameList (sig ++ sig.take (roundUpLen sig.length F H - sig.length)) F H) ∧
    (sig ++ sig.take (roundUpLen sig.length F H - sig.length)).length =
      roundUpLen sig.length F H := by
  obtain ⟨hedge, hlt⟩ := segmentAxisEdge_wrap_ok sig F H v hh hf hnd hfit
  obtain ⟨hge, hmod⟩ := roundUp_bounds sig.length F H hh hnd
  have hlen : (sig ++ sig.take (roundUpLen sig.length F H - sig.length)).length =
      roundUpLen sig.length F H := by
    rw [List.length_append, List.length_take]
    omega
  refine ⟨?_, hlen⟩
  refine segmentAxis_assemble sig _ F H .wrap v hh hf hedge ?_ ?_
  · rw [hlen]; exact hge
  · rw [hlen]; exact hmod

/-- C6 witness: wrapping [0, 1, 2] with frame size 2 and hop size 2
extends the signal to [0, 1, 2, 0] (round_up = 4, a one-sample prefix
copy) and frames it as [[0, 1], [2, 0]]. -/
theorem claim_c6_witness :
    ((2 : Nat) ≠ 0 ∧ (2 : Nat) ≠ 0 ∧
      (([0, 1, 2] : List Int).length < 2 ∨
        (([0, 1, 2] : List Int).length - 2) % 2 ≠ 0) ∧
      roundUpLen ([0, 1, 2] : List Int).length 2 2 - ([0, 1, 2] : List Int).length ≤
        ([0, 1, 2] : List Int).length) ∧
    segmentAxis ([0, 1, 2] : List Int) 2 2 .wrap 0 = .ok [[0, 1], [2, 0]] ∧
    (([0, 1, 2] : List Int) ++
      ([0, 1, 2] : List Int).take
        (roundUpLen ([0, 1, 2] : List Int).length 2 2 - ([0, 1, 2] : List Int).length)).length =
      roundUpLen ([0, 1, 2] : List Int).length 2 2 := by
  have h := claim_c6_wrap_prefix [0, 1, 2] 2 2 0 (by decide) (by decide)
    (by decide) (by decide)
  exact ⟨⟨by decide, by decide, by decide, by decide⟩, h.1.trans (by rfl), h.2⟩

/-- C6 counterexample: [0, 1] with frame size 5 and hop size 1 does not
divide evenly (round_up = 5, extension 3 > L = 2), and instead of
returning an extended output the source fails with a numpy broadcast
error (y[2:5] = signal[:3] assigns a length-2 slice to a length-3 one). -/
theorem claim_c6_counterexample :
    segmentAxis ([0, 1] : List Int) 5 1 .wrap 0 = .error .broadcast ∧
    (([0, 1] : List Int).length < 5 ∨ (([0, 1] : List Int).length - 5) % 1 ≠ 0) ∧
    roundUpLen ([0, 1] : List Int).length 5 1 - ([0, 1] : List Int).length = 3 :=
  ⟨by rfl, by decide, by decide⟩

/-- Boundary of the wrap guard: when the extension exceeds L but the
input has a single sample, the numpy assignment broadcasts that sample
(a length-1 source fills any slot), so the engine succeeds: [5] with
frame size 3 and hop 1 wraps to [5, 5, 5].  The guard round_up - L ≤ L
in the amended C6 therefore cannot be replaced by a blanket failure
statement for round_up - L > L. -/
theorem segmentAxis_wrap_singleton_broadcast :
    segmentAxis [(5 : Int)] 3 1 .wrap 0 = .ok [[5, 5, 5]] := by rfl

theorem segmentAxis_cut_insufficient (sig : List α) (F H : Nat) (v : α)
    (hh : H ≠ 0) (hf : F ≠ 0) (h0 : 0 < sig.length) (hLF : sig.length < F) :
    segmentAxis sig F H .cut v = .error .insufficientData := by
  have hc1 : sig.length < F ∨ (sig.length - F) % H ≠ 0 := Or.inl hLF
  have hFL : ¬ F < sig.length := by omega
  have hru : roundUpLen sig.length F H = F := by simp [roundUpLen, hFL]
  have hrd : roundDownLen sig.length F H = 0 := by simp [roundDownLen, hFL]
  have ha1 : ¬ ¬ (roundDownLen sig.length F H < sig.length ∧
      sig.length < roundUpLen sig.length F H) :=
    not_not_intro (by rw [hru, hrd]; exact ⟨h0, hLF⟩)
  have ha2 : ¬ ¬ (roundUpLen sig.length F H = roundDownLen sig.length F H + H ∨
      (roundUpLen sig.length F H = F ∧ roundDownLen sig.length F H = 0)) :=
    not_not_intro (Or.inr ⟨hru, hrd⟩)
  simp only [segmentAxis, if_neg hh, if_neg hf, segmentAxisEdge]
  rw [if_pos hc1, if_neg ha1, if_neg ha2, hrd]
  simp

theorem segmentAxis_nil_assert (F H : Nat) (pol : EndPolicy) (v : α)
    (hh : H ≠ 0) (hf : F ≠ 0) :
    segmentAxis ([] : List α) F H pol v = .error .assertFailed := by
  have hc1 : ([] : List α).length < F ∨ (([] : List α).length - F) % H ≠ 0 :=
    Or.inl (by simpa using Nat.pos_of_ne_zero hf)
  have ha1 : ¬ (roundDownLen ([] : List α).length F H < ([] : List α).length ∧
      ([] : List α).length < roundUpLen ([] : List α).length F H) := by
    intro h
    exact absurd h.1 (by simp)
  simp only [segmentAxis, if_neg hh, if_neg hf, segmentAxisEdge]
  rw [if_pos hc1, if_pos ha1]

/-- C8 (amended): with positive frame and hop sizes, the cut policy
fails with the insufficient-data condition exactly when the input is
nonempty and shorter than the frame size (0 < L < F, where truncation
yields length 0 and no frame is returned).  The empty input L = 0, whose
truncation also yields 0, instead trips the internal round-length assert
before the insufficient-data check, see the counterexample. -/
theorem claim_c8_cut_insufficient_iff (sig : List Int) (F H : Nat) (v : Int)
    (hh : H ≠ 0) (hf : F ≠ 0) :
    segmentAxis sig F H .cut v = .error .insufficientData ↔
      (0 < sig.length ∧ sig.length < F) := by
  constructor
  · intro h
    by_contra hc
    push_neg at hc
    rcases Nat.eq_zero_or_pos sig.length with h0 | h0
    · have hnil : sig = [] := List.length_eq_zero.mp h0
      rw [hnil, segmentAxis_nil_assert F H .cut v hh hf] at h
      exact SegError.noConfusion (Except.error.inj h)
    · have hge : F ≤ sig.length := by
        have := hc h0
        omega
      rw [segmentAxis_cut_ok sig F H v hh hf hge] at h
      exact Except.noConfusion h
  · rintro ⟨h0, hLF⟩
    exact segmentAxis_cut_insufficient sig F H v hh hf h0 hLF

/-- C8 witness: the two-sample input with frame size 3 fails with the
insufficient-data condition, as 0 < 2 < 3. -/
theorem claim_c8_witness :
    ((1 : Nat) ≠ 0 ∧ (3 : Nat) ≠ 0) ∧
    (segmentAxis ([0, 1] : List Int) 3 1 .cut 0 = .error .insufficientData ↔
      (0 < ([0, 1] : List Int).length ∧ ([0, 1] : List Int).length < 3)) ∧
    segmentAxis ([0, 1] : List Int) 3 1 .cut 0 = .error .insufficientData :=
  ⟨⟨by decide, by decide⟩,
   claim_c8_cut_insufficient_iff [0, 1] 3 1 0 (by decide) (by decide),
   by rfl⟩

/-- C8 counterexample: the empty input has length 0 below the frame size
1 and truncation yields length 0, yet cut fails with the internal assert
round_down < length < round_up, not with the insufficient-data
condition. -/
theorem claim_c8_counterexample :
    segmentAxis ([] : List Int) 1 1 .cut 0 = .error .assertFailed ∧
    segmentAxis ([] : List Int) 1 1 .cut 0 ≠ .error .insufficientData ∧
    ([] : List Int).length < 1 :=
  ⟨by rfl, by
    intro h
    have h2 : (Except.error SegError.assertFailed :
        Except SegError (List (List Int))) = .error .insufficientData := by
      rw [← h]
      rfl
    exact SegError.noConfusion (Except.error.inj h2), by decide⟩

/-! Generic list lemmas: getD through map and range, counting on sorted
lists (the searchsorted contract), scanl monotonicity, groupby runs. -/

theorem getD_map_of_lt (f : γ → δ) (l : List γ) (j : Nat) (hj : j < l.length)
    (d : δ) (d2 : γ) : (l.map f).getD j d = f (l.getD j d2) := by
  rw [List.getD_eq_getElem _ _ (by simpa using hj), List.getD_eq_getElem _ _ hj,
    List.getElem_map]

theorem map_getD_range (l : List γ) (d : γ) :
    (List.range l.length).map (fun i => l.getD i d) = l := by
  apply List.ext_getElem
  · simp
  · intro n h1 h2
    simp only [List.getElem_map, List.getElem_range]
    exact List.getD_eq_getElem _ _ h2

theorem sorted_countP_getD (p : Nat → Bool)
    (hdc : ∀ a b : Nat, a ≤ b → p b = true → p a = true)
    (xs : List Nat) (hs : List.Sorted (· ≤ ·) xs) :
    ∀ i, i < xs.length → (p (xs.getD i 0) = true ↔ i < xs.countP p) := by
  induction xs with
  | nil => intro i hi; simp at hi
  | cons x t ih =>
    rw [List.sorted_cons] at hs
    obtain ⟨hx, ht⟩ := hs
    intro i hi
    rw [List.countP_cons]
    cases i with
    | zero =>
      rw [List.getD_cons_zero]
      by_cases hp : p x = true
      · simp [hp]
      · have hct : t.countP p = 0 :=
          List.countP_eq_zero.mpr (fun a ha hpa => hp (hdc x a (hx a ha) hpa))
        simp [hp, hct]
    | succ n =>
      rw [List.getD_cons_succ]
      have hn : n < t.length := by simpa using hi
      by_cases hp : p x = true
      · rw [ih ht n hn, if_pos hp]
        omega
      · have hct : t.countP p = 0 :=
          List.countP_eq_zero.mpr (fun a ha hpa => hp (hdc x a (hx a ha) hpa))
        rw [hct, if_neg hp]
        constructor
        · intro hpt
          exfalso
          have hmem : t.getD n 0 ∈ t := by
            rw [List.getD_eq_getElem _ _ hn]
            exact List.getElem_mem hn
          exact (List.countP_eq_zero.mp hct _ hmem) hpt
        · omega

theorem mem_scanl_add_le (init : Nat) (l : List Nat) :
    ∀ x ∈ List.scanl (· + ·) init l, init ≤ x := by
  induction l generalizing init with
  | nil =>
    intro x hx
    rw [List.scanl_nil, List.mem_singleton] at hx
    omega
  | cons a t ih =>
    intro x hx
    rw [List.scanl_cons, List.singleton_append, List.mem_cons] at hx
    rcases hx with h | h
    · omega
    · have := ih (init + a) x h
      omega

theorem sorted_scanl_add (init : Nat) (l : List Nat) :
    List.Sorted (· ≤ ·) (List.scanl (· + ·) init l) := by
  induction l generalizing init with
  | nil => rw [List.scanl_nil]; exact List.sorted_singleton init
  | cons a t ih =>
    rw [List.scanl_cons, List.singleton_append, List.sorted_cons]
    refine ⟨fun b hb => ?_, ih (init + a)⟩
    have := mem_scanl_add_le (init + a) t b hb
    omega

theorem scanl_add_getD_zero (init : Nat) (l : List Nat) :
    (List.scanl (· + ·) init l).getD 0 0 = init := by
  cases l with
  | nil => rw [List.scanl_nil]; rfl
  | cons a t => rw [List.scanl_cons]; rfl

theorem dsEnds_eq_scanl (a : AggDataSource γ δ) :
    a.dsEnds = List.scanl (· + ·) 0 (a.sources.map (fun d => d.data.length)) := by
  simp [AggDataSource.dsEnds, cumsum, List.scanl_cons]

theorem dsEnds_length (a : AggDataSource γ δ) :
    a.dsEnds.length = a.sources.length + 1 := by
  rw [dsEnds_eq_scanl, List.length_scanl, List.length_map]

theorem dsEnds_sorted (a : AggDataSource γ δ) :
    List.Sorted (· ≤ ·) a.dsEnds := by
  rw [dsEnds_eq_scanl]
  exact sorted_scanl_add 0 _

theorem dsEnds_getD_zero (a : AggDataSource γ δ) : a.dsEnds.getD 0 0 = 0 := by
  rw [dsEnds_eq_scanl]
  exact scanl_add_getD_zero 0 _

/-- C4: for every aggregation and every global index g below the last
cumulative offset, the index translation returns the unique component k
with offset[k] ≤ g < offset[k+1], together with local index
g - offset[k]. -/
theorem claim_c4_index_translation (a : AggDataSource Int Int) (g : Nat)
    (hg : g < a.dsEnds.getD a.sources.length 0) :
    a.dsEnds.getD (a.toDsIdx g).1 0 ≤ g ∧
    g < a.dsEnds.getD ((a.toDsIdx g).1 + 1) 0 ∧
    (a.toDsIdx g).2 = g - a.dsEnds.getD (a.toDsIdx g).1 0 ∧
    (∀ j, j + 1 < a.dsEnds.length → a.dsEnds.getD j 0 ≤ g →
      g < a.dsEnds.getD (j + 1) 0 → j = (a.toDsIdx g).1) := by
  have hlen := dsEnds_length a
  have hiff := sorted_countP_getD (fun x => decide (x ≤ g))
    (fun x y hxy hpy => decide_eq_true (Nat.le_trans hxy (of_decide_eq_true hpy)))
    a.dsEnds (dsEnds_sorted a)
  have hcle : a.dsEnds.countP (fun x => decide (x ≤ g)) ≤ a.dsEnds.length :=
    List.countP_le_length _
  have h0cnt : 0 < a.dsEnds.countP (fun x => decide (x ≤ g)) := by
    have h0 : (0 : Nat) < a.dsEnds.length := by omega
    have := (hiff 0 h0).mp (by rw [dsEnds_getD_zero]; simp)
    exact this
  have hcN : a.dsEnds.countP (fun x => decide (x ≤ g)) ≤ a.sources.length := by
    by_contra hcon
    push_neg at hcon
    have hNlt : a.sources.length < a.dsEnds.length := by omega
    have := (hiff a.sources.length hNlt).mpr hcon
    have hle := of_decide_eq_true this
    omega
  have hk1 : (a.toDsIdx g).1 = a.dsEnds.countP (fun x => decide (x ≤ g)) - 1 := rfl
  constructor
  · rw [hk1]
    have h1 : a.dsEnds.countP (fun x => decide (x ≤ g)) - 1 < a.dsEnds.length := by omega
    exact of_decide_eq_true ((hiff _ h1).mpr (by omega))
  constructor
  · rw [hk1]
    have hsucc : a.dsEnds.countP (fun x => decide (x ≤ g)) - 1 + 1 =
        a.dsEnds.countP (fun x => decide (x ≤ g)) := by omega
    rw [hsucc]
    have h1 : a.dsEnds.countP (fun x => decide (x ≤ g)) < a.dsEnds.length := by omega
    have hnot : ¬ (decide (a.dsEnds.getD (a.dsEnds.countP (fun x => decide (x ≤ g))) 0 ≤ g)
        = true) := by
      rw [hiff _ h1]
      omega
    have := Nat.lt_of_not_le (fun hle => hnot (decide_eq_true hle))
    exact this
  constructor
  · rfl
  · intro j hj hjle hjgt
    rw [hk1]
    have hjlow : j < a.dsEnds.countP (fun x => decide (x ≤ g)) :=
      (hiff j (by omega)).mp (decide_eq_true hjle)
    have hjhigh : ¬ (j + 1 < a.dsEnds.countP (fun x => decide (x ≤ g))) := by
      intro hcon
      have := of_decide_eq_true ((hiff (j + 1) (by omega)).mpr hcon)
      omega
    omega

/-- C4 witness: for components of 3 and 5 samples (offsets [0, 3, 8]),
global index 3 translates to component 1, local 0, satisfying
offset[1] ≤ 3 < offset[2]; globals 2 and 7 translate to (0, 2) and
(1, 4). -/
theorem claim_c4_witness :
    (3 : Nat) < exAgg.dsEnds.getD exAgg.sources.length 0 ∧
    exAgg.dsEnds.getD (exAgg.toDsIdx 3).1 0 ≤ 3 ∧
    exAgg.toDsIdx 2 = (0, 2) ∧ exAgg.toDsIdx 3 = (1, 0) ∧
    exAgg.toDsIdx 7 = (1, 4) :=
  ⟨by decide, (claim_c4_index_translation exAgg 3 (by decide)).1,
   by decide, by decide, by decide⟩

/-- C9: the list read of an aggregation leaves the aggregation itself
unchanged, and leaves the caller's index list sorted ascending: the
post-call list is an ascending reordering of the original. -/
theorem claim_c9_sort_in_place (a : AggDataSource Int Int) (item : List Nat) :
    (a.getListRead item).1 = a ∧
    List.Sorted (· ≤ ·) (a.getListRead item).2.1 ∧
    (a.getListRead item).2.1.Perm item :=
  ⟨rfl, List.sorted_insertionSort (· ≤ ·) item, List.perm_insertionSort (· ≤ ·) item⟩

theorem vstack_of_ne_nil (ls : List (List ρ)) (h : ls ≠ []) :
    vstack ls = some ls.flatten := by
  cases ls with
  | nil => exact absurd rfl h
  | cons x t => rfl

theorem groupByKey_flatten (key : γ → Nat) (l : List γ) :
    ((groupByKey key l).map Prod.snd).flatten = l := by
  induction l with
  | nil => rfl
  | cons a rest ih =>
    rw [groupByKey]
    cases hg : groupByKey key rest with
    | nil =>
      rw [hg] at ih
      simp only [List.map_nil, List.flatten_nil] at ih
      simp [← ih]
    | cons g gs =>
      obtain ⟨k, grp⟩ := g
      rw [hg] at ih
      dsimp only
      by_cases hk : key a = k
      · rw [if_pos hk]
        simp only [List.map_cons, List.flatten_cons] at ih ⊢
        rw [← ih]
        rfl
      · rw [if_neg hk]
        simp only [List.map_cons, List.flatten_cons] at ih ⊢
        rw [← ih]
        rfl

theorem groupByKey_key_eq (key : γ → Nat) (l : List γ) :
    ∀ grp ∈ groupByKey key l, ∀ x ∈ grp.2, key x = grp.1 := by
  induction l with
  | nil => simp [groupByKey]
  | cons a rest ih =>
    intro grp hgrp x hx
    rw [groupByKey] at hgrp
    cases hg : groupByKey key rest with
    | nil =>
      rw [hg, List.mem_singleton] at hgrp
      subst hgrp
      rw [List.mem_singleton] at hx
      subst hx
      rfl
    | cons g gs =>
      obtain ⟨k, grp2⟩ := g
      rw [hg] at hgrp ih
      dsimp only at hgrp
      by_cases hk : key a = k
      · rw [if_pos hk, List.mem_cons] at hgrp
        rcases hgrp with h | h
        · subst h
          rw [List.mem_cons] at hx
          rcases hx with h | h
          · subst h
            exact hk
          · exact ih (k, grp2) (List.mem_cons_self _ _) x h
        · exact ih grp (List.mem_cons_of_mem _ h) x hx
      · rw [if_neg hk, List.mem_cons] at hgrp
        rcases hgrp with h | h
        · subst h
          rw [List.mem_singleton] at hx
          subst hx
          rfl
        · exact ih grp h x hx

theorem groupByKey_ne_nil (key : γ → Nat) (a : γ) (rest : List γ) :
    groupByKey key (a :: rest) ≠ [] := by
  rw [groupByKey]
  cases groupByKey key rest with
  | nil => simp
  | cons g gs =>
    obtain ⟨k, grp⟩ := g
    by_cases h : key a = k <;> simp [h]

theorem groupByKey_fetch_flatten (pairs : List (Nat × Nat)) (f : Nat → Nat → δ) :
    ((groupByKey Prod.fst pairs).map
        (fun g => (g.2.map Prod.snd).map (fun i => f g.1 i))).flatten =
      pairs.map (fun p => f p.1 p.2) := by
  have hcong : (groupByKey Prod.fst pairs).map
      (fun g => (g.2.map Prod.snd).map (fun i => f g.1 i)) =
      (groupByKey Prod.fst pairs).map (fun g => g.2.map (fun p => f p.1 p.2)) := by
    apply List.map_congr_left
    intro g hg
    rw [List.map_map]
    apply List.map_congr_left
    intro p hp
    have hkey := groupByKey_key_eq Prod.fst pairs g hg p hp
    simp only [Function.comp_apply]
    rw [hkey]
  rw [hcong]
  have hmm : (groupByKey Prod.fst pairs).map (fun g => g.2.map (fun p => f p.1 p.2)) =
      ((groupByKey Prod.fst pairs).map Prod.snd).map (List.map (fun p => f p.1 p.2)) := by
    rw [List.map_map]
    rfl
  rw [hmm, ← List.map_flatten, groupByKey_flatten]

theorem agg_dParts_flatten [Inhabited γ] [Inhabited δ] (a : AggDataSource γ δ)
    (ys : List Nat) :
    ((groupByKey Prod.fst (ys.map a.toDsIdx)).map
      (fun g => (g.2.map Prod.snd).map
        (fun i => (a.sources.getD g.1 default).data.getD i default))).flatten =
      ys.map a.rowData := by
  refine (groupByKey_fetch_flatten (ys.map a.toDsIdx)
    (fun k i => (a.sources.getD k default).data.getD i default)).trans ?_
  rw [List.map_map]
  exact List.map_congr_left (fun g _ => rfl)

theorem agg_tParts_flatten [Inhabited γ] [Inhabited δ] (a : AggDataSource γ δ)
    (ys : List Nat) :
    ((groupByKey Prod.fst (ys.map a.toDsIdx)).map
      (fun g => (g.2.map Prod.snd).map
        (fun i => (a.sources.getD g.1 default).targets.getD i default))).flatten =
      ys.map a.rowTarget := by
  refine (groupByKey_fetch_flatten (ys.map a.toDsIdx)
    (fun k i => (a.sources.getD k default).targets.getD i default)).trans ?_
  rw [List.map_map]
  exact List.map_congr_left (fun g _ => rfl)

/-- C5: for every nonempty list of global indices, the aggregation list
read returns the feature and target rows in ascending global-index order
(the rows of the ascending sort of the request), regardless of the order
the caller supplied; the original request order is not restored. -/
theorem claim_c5_agg_sorted_order (a : AggDataSource Int Int) (item : List Nat)
    (hne : item ≠ []) :
    (a.getListRead item).2.2 =
      some ((item.insertionSort (· ≤ ·)).map a.rowData,
        (item.insertionSort (· ≤ ·)).map a.rowTarget) := by
  have hsne : item.insertionSort (· ≤ ·) ≠ [] := by
    intro h
    apply hne
    have hp := List.perm_insertionSort (fun x y : Nat => x ≤ y) item
    rw [h] at hp
    exact (hp.symm).eq_nil
  have hpne : (item.insertionSort (· ≤ ·)).map a.toDsIdx ≠ [] := by
    intro h
    exact hsne (List.map_eq_nil_iff.mp h)
  have hgne : groupByKey Prod.fst
      ((item.insertionSort (· ≤ ·)).map a.toDsIdx) ≠ [] := by
    obtain ⟨p, ps, hx⟩ := List.exists_cons_of_ne_nil hpne
    rw [hx]
    exact groupByKey_ne_nil _ p ps
  simp only [AggDataSource.getListRead, DataSource.getListRead]
  rw [vstack_of_ne_nil _ (by
    intro h
    exact hgne (List.map_eq_nil_iff.mp h))]
  rw [vstack_of_ne_nil _ (by
    intro h
    exact hgne (List.map_eq_nil_iff.mp h))]
  rw [agg_dParts_flatten, agg_tParts_flatten]

/-- C5 witness: reading [7, 2, 3] from the aggregation of a 3-sample and
a 5-sample component returns the rows of sorted order [2, 3, 7], not the
request order. -/
theorem claim_c5_witness :
    ([7, 2, 3] : List Nat) ≠ [] ∧
    (exAgg.getListRead [7, 2, 3]).2.2 =
      some ((([7, 2, 3] : List Nat).insertionSort (· ≤ ·)).map exAgg.rowData,
        (([7, 2, 3] : List Nat).insertionSort (· ≤ ·)).map exAgg.rowTarget) ∧
    (exAgg.getListRead [7, 2, 3]).2.2 = some ([30, 40, 80], [130, 140, 180]) :=
  ⟨by decide, claim_c5_agg_sorted_order exAgg [7, 2, 3] (by decide), by rfl⟩

/-- C10: on both the aggregation and the context source, a slice bound
equal to 0 reads exactly like an unspecified bound: Python (x or d) maps
both None and 0 to the default, so stop = 0 becomes the total sample
count (the read runs from start to the end instead of returning an empty
result), start = 0 stays 0 and step = 0 becomes 1. -/
theorem claim_c10_slice_zero_like_none (a : AggDataSource Int Int)
    (c : ContextDataSource Int Int) (x y : Option Nat) :
    a.getSlice (some 0) x y = a.getSlice none x y ∧
    a.getSlice x (some 0) y = a.getSlice x none y ∧
    a.getSlice x y (some 0) = a.getSlice x y none ∧
    c.getSlice (some 0) x y = c.getSlice none x y ∧
    c.getSlice x (some 0) y = c.getSlice x none y ∧
    c.getSlice x y (some 0) = c.getSlice x y none :=
  ⟨rfl, rfl, rfl, rfl, rfl, rfl⟩

/-! Extraction of the fields a successful ContextDataSource construction
produces, and the shape of a successful hop-1 cut framing. -/

theorem mkContextDataSource_ok {α β : Type} [Zero α] (data : List α) (targets : List β)
    (r : Nat) (start stop step : Option Nat) (c : ContextDataSource α β)
    (hmk : mkContextDataSource data targets r start stop step = .ok c) :
    c.step = pyOr step 1 ∧ c.contextSize = r ∧ c.nData = data.length ∧
    c.targets = pySlice targets start stop ∧
    c.beginData = mkBeginData data r ∧ c.endData = mkEndData data r ∧
    segmentAxis (pySlice data start stop) (1 + 2 * r) 1 .cut 0 = .ok c.frames ∧
    data.length = c.frames.length + c.beginData.length + c.endData.length := by
  simp only [mkContextDataSource] at hmk
  split at hmk
  · exact absurd hmk (fun h => Except.noConfusion h)
  · split at hmk
    · exact absurd hmk (fun h => Except.noConfusion h)
    · rename_i fr heq
      split at hmk
      · rename_i hlen
        have hc := Except.ok.inj hmk
        subst hc
        exact ⟨rfl, rfl, rfl, rfl, rfl, rfl, heq, hlen⟩
      · exact absurd hmk (fun h => Except.noConfusion h)

theorem segmentAxis_hop_one_ok {α : Type} (sig : List α) (F : Nat) (fr : List (List α))
    (v : α) (hf : F ≠ 0) (hok : segmentAxis sig F 1 .cut v = .ok fr) :
    F ≤ sig.length ∧ fr = frameList sig F 1 := by
  have hL : F ≤ sig.length := by
    by_contra hlt
    push_neg at hlt
    rcases Nat.eq_zero_or_pos sig.length with h0 | h0
    · rw [List.length_eq_zero.mp h0,
        segmentAxis_nil_assert F 1 .cut v (by omega) hf] at hok
      exact Except.noConfusion hok
    · rw [segmentAxis_cut_insufficient sig F 1 v (by omega) hf h0 hlt] at hok
      exact Except.noConfusion hok
  have hcall := segmentAxis_cut_ok sig F 1 v (by omega) hf hL
  have hcf : cutFinalLen sig.length F 1 = sig.length := by
    simp [cutFinalLen, Nat.mod_one]
  rw [hcf, List.take_length] at hcall
  rw [hcall] at hok
  exact ⟨hL, (Except.ok.inj hok).symm⟩

theorem mkBeginData_length [Zero γ] (data : List γ) (r : Nat) :
    (mkBeginData data r).length = r := by
  rw [mkBeginData, List.length_map, List.length_range]

theorem mkEndData_length [Zero γ] (data : List γ) (r : Nat) :
    (mkEndData data r).length = r := by
  rw [mkEndData, List.length_map, List.length_reverse, List.length_range]

/-- C7: every successfully constructed context source, including with a
start/stop sub-range supplied, satisfies head-buffer count + tail-buffer
count + interior frame count = n, the backing sample count (the
constructor's final assert enforces it; a sub-range that actually
shrinks the data makes construction fail that assert). -/
theorem claim_c7_buffer_partition (data targets : List Int) (r : Nat)
    (start stop step : Option Nat) (c : ContextDataSource Int Int)
    (hmk : mkContextDataSource data targets r start stop step = .ok c) :
    c.beginData.length + c.endData.length + c.frames.length = data.length := by
  obtain ⟨_, _, _, _, _, _, _, hlen⟩ :=
    mkContextDataSource_ok data targets r start stop step c hmk
  omega

/-- C7 witness: the scenario source over [0..9] with radius 2 is
successfully constructed and splits its 10 samples into 2 head windows,
2 tail windows and 6 interior frames. -/
theorem claim_c7_witness :
    mkContextDataSource exSignal exSignal 2 none none (some 1) = .ok exCtx ∧
    exCtx.beginData.length + exCtx.endData.length + exCtx.frames.length =
      exSignal.length :=
  ⟨by rfl,
   claim_c7_buffer_partition exSignal exSignal 2 none none (some 1) exCtx (by rfl)⟩

/-- C1: for a context source built over a backing array of n samples
with radius r and no sub-range, the scalar read of a logical index
returns the window at unscaled index u = idx * step made of r - u
leading zero rows (when u < r), the backing samples from u - r to
u + r inclusive clipped to the array, and u + r + 1 - n trailing zero
rows (when u + r + 1 > n); in the interior this is exactly
backing[u - r : u + r + 1]. -/
theorem claim_c1_window_content (data targets : List Int) (r idx : Nat)
    (step : Option Nat) (c : ContextDataSource Int Int)
    (hmk : mkContextDataSource data targets r none none step = .ok c)
    (hidx : idx * c.step < data.length) :
    (c.getScalar idx).1 =
      List.replicate (r - idx * c.step) 0 ++
      ((data.take (idx * c.step + r + 1)).drop (idx * c.step - r) ++
      List.replicate (idx * c.step + r + 1 - data.length) 0) := by
  obtain ⟨hstep, hcs, hnd, htg, hbd, hed, hseg, hlen⟩ :=
    mkContextDataSource_ok data targets r none none step c hmk
  have hps : pySlice data none none = data := by
    simp [pySlice]
  rw [hps] at hseg
  obtain ⟨hF, hfr⟩ := segmentAxis_hop_one_ok data (1 + 2 * r) c.frames 0 (by omega) hseg
  have hn : 2 * r + 1 ≤ data.length := by omega
  show c.windowAt (idx * c.step) = _
  set u := idx * c.step with hu
  rw [ContextDataSource.windowAt, hcs, hnd, hbd, hed, hfr]
  by_cases h1 : u < r
  · rw [if_pos h1]
    have hbw : (mkBeginData data r).getD u [] =
        List.replicate (r - u) 0 ++ data.take (u + r + 1) := by
      rw [mkBeginData, getD_map_of_lt _ _ u (by simpa using h1) [] 0,
        List.getD_eq_getElem _ _ (by simpa using h1), List.getElem_range]
    rw [hbw]
    have h2 : u - r = 0 := by omega
    have h3 : u + r + 1 - data.length = 0 := by omega
    rw [h2, h3, List.drop_zero, List.replicate_zero, List.append_nil]
  · by_cases h2 : data.length - r ≤ u
    · rw [if_neg h1, if_pos h2]
      have hj : u + r - data.length < r := by omega
      have hjlen : u + r - data.length < ((List.range r).reverse).length := by
        simpa using hj
      rw [mkEndData, getD_map_of_lt _ _ (u + r - data.length) hjlen [] 0]
      have hrev : ((List.range r).reverse).getD (u + r - data.length) 0 =
          r - 1 - (u + r - data.length) := by
        rw [List.getD_eq_getElem _ _ hjlen, List.getElem_reverse, List.getElem_range]
        simp
      rw [hrev]
      have e1 : data.length - r - (r - 1 - (u + r - data.length)) - 1 = u - r := by
        omega
      have e2 : r - (r - 1 - (u + r - data.length)) = u + r + 1 - data.length := by
        omega
      have e3 : r - u = 0 := by omega
      rw [e1, e2, e3, List.replicate_zero, List.nil_append,
        List.take_of_length_le (by omega)]
    · rw [if_neg h1, if_neg h2]
      have hlt : u - r < 1 + (data.length - (1 + 2 * r)) / 1 := by
        rw [Nat.div_one]
        omega
      have hltlen : u - r < (List.range (1 + (data.length - (1 + 2 * r)) / 1)).length := by
        simpa using hlt
      rw [frameList, getD_map_of_lt _ _ (u - r) hltlen [] 0,
        List.getD_eq_getElem _ _ hltlen, List.getElem_range, Nat.mul_one]
      have e3 : r - u = 0 := by omega
      have e4 : u + r + 1 - data.length = 0 := by omega
      rw [e3, e4, List.replicate_zero, List.nil_append, List.append_nil,
        List.drop_take]
      have e5 : u + r + 1 - (u - r) = 1 + 2 * r := by omega
      rw [e5]

/-- C1 witness: over backing array [0..9] with radius 2 and step 1,
logical index 0 yields [0,0,0,1,2], index 5 yields [3,4,5,6,7] and
index 9 yields [7,8,9,0,0]. -/
theorem claim_c1_witness :
    mkContextDataSource exSignal exSignal 2 none none (some 1) = .ok exCtx ∧
    0 * exCtx.step < exSignal.length ∧
    (exCtx.getScalar 0).1 = [0, 0, 0, 1, 2] ∧
    (exCtx.getScalar 5).1 = [3, 4, 5, 6, 7] ∧
    (exCtx.getScalar 9).1 = [7, 8, 9, 0, 0] := by
  refine ⟨by rfl, by decide, ?_, by rfl, by rfl⟩
  exact (claim_c1_window_content exSignal exSignal 2 0 (some 1) exCtx
    (by rfl) (by decide)).trans (by rfl)

/-! The argsort machinery: argsort is a permutation of the index range,
gathers into a sorted list, and argsort of an argsort is its inverse
permutation. -/

theorem argsort_perm (xs : List Nat) : (argsort xs).Perm (List.range xs.length) :=
  List.perm_insertionSort _ _

theorem argsort_length (xs : List Nat) : (argsort xs).length = xs.length := by
  rw [(argsort_perm xs).length_eq, List.length_range]

theorem argsort_key_sorted (xs : List Nat) :
    List.Pairwise (fun i j => xs.getD i 0 ≤ xs.getD j 0) (argsort xs) := by
  haveI : IsTotal Nat (fun i j => xs.getD i 0 ≤ xs.getD j 0) :=
    ⟨fun a b => Nat.le_total _ _⟩
  haveI : IsTrans Nat (fun i j => xs.getD i 0 ≤ xs.getD j 0) :=
    ⟨fun a b c hab hbc => Nat.le_trans hab hbc⟩
  exact List.sorted_insertionSort _ _

theorem sortedKeys_sorted (xs : List Nat) :
    List.Sorted (· ≤ ·) ((argsort xs).map (fun i => xs.getD i 0)) := by
  rw [List.Sorted, List.pairwise_map]
  exact argsort_key_sorted xs

theorem argsort_argsort_map (xs : List Nat) :
    (argsort (argsort xs)).map (fun j => (argsort xs).getD j 0) =
      List.range xs.length := by
  have hperm : ((argsort (argsort xs)).map (fun j => (argsort xs).getD j 0)).Perm
      (List.range xs.length) := by
    have h1 : (argsort (argsort xs)).Perm (List.range (argsort xs).length) :=
      argsort_perm _
    have h2 := h1.map (fun j => (argsort xs).getD j 0)
    rw [map_getD_range (argsort xs) 0] at h2
    exact h2.trans (argsort_perm xs)
  exact List.eq_of_perm_of_sorted hperm (sortedKeys_sorted (argsort xs))
    ((List.pairwise_lt_range _).imp Nat.le_of_lt)

theorem revert_map_getD {ρ : Type} (xs : List Nat) (f : Nat → ρ) (d : ρ) :
    (argsort (argsort xs)).map
      (fun j => (((argsort xs).map (fun i => xs.getD i 0)).map f).getD j d) =
      xs.map f := by
  have hmem : ∀ j ∈ argsort (argsort xs), j < (argsort xs).length := by
    intro j hj
    have hper : (argsort (argsort xs)).Perm (List.range (argsort xs).length) :=
      argsort_perm _
    simpa [List.mem_range] using hper.mem_iff.mp hj
  calc (argsort (argsort xs)).map
        (fun j => (((argsort xs).map (fun i => xs.getD i 0)).map f).getD j d)
      = (argsort (argsort xs)).map (fun j => f (xs.getD ((argsort xs).getD j 0) 0)) := by
        apply List.map_congr_left
        intro j hj
        have hjlt : j < (argsort xs).length := hmem j hj
        rw [getD_map_of_lt f ((argsort xs).map (fun i => xs.getD i 0)) j
          (by rw [List.length_map]; exact hjlt) d 0,
          getD_map_of_lt (fun i => xs.getD i 0) (argsort xs) j hjlt 0 0]
    _ = ((argsort (argsort xs)).map (fun j => (argsort xs).getD j 0)).map
        (fun i => f (xs.getD i 0)) := by
        rw [List.map_map]
        rfl
    _ = (List.range xs.length).map (fun i => f (xs.getD i 0)) := by
        rw [argsort_argsort_map]
    _ = ((List.range xs.length).map (fun i => xs.getD i 0)).map f := by
        rw [List.map_map]
        rfl
    _ = xs.map f := by
        rw [map_getD_range]

/-! The partition of a sorted index list at the head and tail boundaries,
as the two searchsorted calls of the list read produce it. -/

theorem sorted_partition_map {ρ : Type} (ys : List Nat) (hs : List.Sorted (· ≤ ·) ys)
    (v w : Nat) (hvw : v ≤ w + 1) (fH fM fT g : Nat → ρ)
    (hH : ∀ u, u < v → fH u = g u) (hM : ∀ u, v ≤ u → u ≤ w → fM u = g u)
    (hT : ∀ u, w < u → fT u = g u) :
    (ys.take (searchsortedLeft ys v)).map fH ++
      ((ys.take (searchsortedRight ys w)).drop (searchsortedLeft ys v)).map fM ++
      (ys.drop (searchsortedRight ys w)).map fT = ys.map g := by
  induction ys with
  | nil => rfl
  | cons y t ih =>
    rw [List.sorted_cons] at hs
    obtain ⟨hy, ht⟩ := hs
    simp only [searchsortedLeft, searchsortedRight] at ih ⊢
    rw [List.countP_cons, List.countP_cons]
    by_cases h1 : y < v
    · have h2 : y ≤ w := by omega
      rw [if_pos (by simpa using h1), if_pos (by simpa using h2)]
      rw [List.take_succ_cons, List.take_succ_cons, List.drop_succ_cons,
        List.drop_succ_cons]
      simp only [List.map_cons, List.cons_append]
      rw [hH y h1, ih ht]
    · by_cases h2 : y ≤ w
      · rw [if_neg (by simpa using h1), if_pos (by simpa using h2)]
        have hcL : t.countP (fun x => decide (x < v)) = 0 :=
          List.countP_eq_zero.mpr (fun a ha => by
            have := hy a ha
            simp only [decide_eq_true_eq]
            omega)
        rw [hcL, Nat.add_zero]
        have iht := ih ht
        rw [hcL, List.take_zero, List.map_nil, List.nil_append, List.drop_zero] at iht
        rw [List.take_zero, List.map_nil, List.nil_append, List.take_succ_cons,
          List.drop_zero, List.drop_succ_cons]
        simp only [List.map_cons, List.cons_append]
        rw [hM y (by omega) h2, iht]
      · push_neg at h2
        have h1b : ¬ y < v := h1
        rw [if_neg (by simpa using h1), if_neg (by simp only [decide_eq_true_eq]; omega)]
        have hcL : t.countP (fun x => decide (x < v)) = 0 :=
          List.countP_eq_zero.mpr (fun a ha => by
            have := hy a ha
            simp only [decide_eq_true_eq]
            omega)
        have hcR : t.countP (fun x => decide (x ≤ w)) = 0 :=
          List.countP_eq_zero.mpr (fun a ha => by
            have := hy a ha
            simp only [decide_eq_true_eq]
            omega)
        rw [hcL, hcR, Nat.add_zero]
        simp only [List.take_zero, List.drop_zero, List.map_nil, List.nil_append]
        apply List.map_congr_left
        intro a ha
        rw [List.mem_cons] at ha
        rcases ha with rfl | ha
        · exact hT a h2
        · exact hT a (by have := hy a ha; omega)

/-! Emptiness and flattening of the three guarded region batches. -/

theorem flatten_guard_one {ρ : Type} (c : Prop) [Decidable c] (A : List ρ) :
    (if c then [A] else []).flatten = if c then A else [] := by
  by_cases h : c <;> simp [h]

theorem flatten_three_guards {ρ : Type} (cA cB cC : Prop) [Decidable cA] [Decidable cB]
    [Decidable cC] (A B C : List ρ) (hA : ¬cA → A = []) (hB : ¬cB → B = [])
    (hC : ¬cC → C = []) :
    ((if cA then [A] else []) ++
      (if cB then [B] else []) ++ (if cC then [C] else [])).flatten =
      A ++ B ++ C := by
  rw [List.flatten_append, List.flatten_append, flatten_guard_one, flatten_guard_one,
    flatten_guard_one]
  have eA : (if cA then A else []) = A := by
    by_cases h : cA
    · rw [if_pos h]
    · rw [if_neg h, hA h]
  have eB : (if cB then B else []) = B := by
    by_cases h : cB
    · rw [if_pos h]
    · rw [if_neg h, hB h]
  have eC : (if cC then C else []) = C := by
    by_cases h : cC
    · rw [if_pos h]
    · rw [if_neg h, hC h]
  rw [eA, eB, eC]

theorem three_guards_ne_nil {ρ : Type} (cA cB cC : Prop) [Decidable cA] [Decidable cB]
    [Decidable cC] (A B C : List ρ) (h : cA ∨ cB ∨ cC) :
    (if cA then [A] else []) ++
      (if cB then [B] else []) ++ (if cC then [C] else []) ≠ [] := by
  intro hcon
  rw [List.append_eq_nil] at hcon
  obtain ⟨e12, e3⟩ := hcon
  rw [List.append_eq_nil] at e12
  obtain ⟨e1, e2⟩ := e12
  rcases h with h | h | h
  · rw [if_pos h] at e1
    exact List.noConfusion e1
  · rw [if_pos h] at e2
    exact List.noConfusion e2
  · rw [if_pos h] at e3
    exact List.noConfusion e3

theorem ctx_getList_eq_map {γ δ : Type} [Inhabited δ] (c : ContextDataSource γ δ)
    (hn : 2 * c.contextSize + 1 ≤ c.nData) (item : List Nat) (hne : item ≠ []) :
    c.getList item = some (item.map (fun i => (c.getScalar i).1),
      item.map (fun i => (c.getScalar i).2)) := by
  simp only [ContextDataSource.getList]
  set xs := item.map (fun i => i * c.step) with hxs
  set sorted := (argsort xs).map (fun i => xs.getD i 0) with hsorted
  set gb := searchsortedLeft sorted c.contextSize with hgb
  set ge := searchsortedRight sorted (c.nData - c.contextSize - 1) with hge
  have hxl : xs.length = item.length := by rw [hxs, List.length_map]
  have hx0 : xs.length ≠ 0 := by
    rw [hxl]
    intro h
    exact hne (List.length_eq_zero.mp h)
  have hsl : sorted.length = xs.length := by
    rw [hsorted, List.length_map, argsort_length]
  have hss : List.Sorted (· ≤ ·) sorted := by
    rw [hsorted]
    exact sortedKeys_sorted xs
  have hvw : c.contextSize ≤ (c.nData - c.contextSize - 1) + 1 := by omega
  have hwin : (sorted.take gb).map (fun u => c.beginData.getD u []) ++
      ((sorted.take ge).drop gb).map (fun u => c.frames.getD (u - c.contextSize) []) ++
      (sorted.drop ge).map (fun u => c.endData.getD (u + c.contextSize - c.nData) []) =
      sorted.map c.windowAt := by
    rw [hgb, hge]
    exact sorted_partition_map sorted hss c.contextSize (c.nData - c.contextSize - 1) hvw
      _ _ _ c.windowAt
      (fun u hu => by rw [ContextDataSource.windowAt, if_pos hu])
      (fun u hl hr => by
        rw [ContextDataSource.windowAt, if_neg (by omega), if_neg (by omega)])
      (fun u hu => by
        rw [ContextDataSource.windowAt, if_neg (by omega), if_pos (by omega)])
  have htgt : (sorted.take gb).map (fun u => c.targets.getD u default) ++
      ((sorted.take ge).drop gb).map (fun u => c.targets.getD u default) ++
      (sorted.drop ge).map (fun u => c.targets.getD u default) =
      sorted.map c.targetAt := by
    rw [hgb, hge]
    exact sorted_partition_map sorted hss c.contextSize (c.nData - c.contextSize - 1) hvw
      _ _ _ c.targetAt (fun u _ => rfl) (fun u _ _ => rfl) (fun u _ => rfl)
  have hgble : gb ≤ sorted.length := by
    rw [hgb, searchsortedLeft]
    exact List.countP_le_length _
  have hgele : ge ≤ sorted.length := by
    rw [hge, searchsortedRight]
    exact List.countP_le_length _
  have hdisj : 0 < gb ∨ gb < ge ∨ ge < sorted.length := by
    by_contra hcon
    push_neg at hcon
    omega
  have hA0 : ¬ 0 < gb →
      (sorted.take gb).map (fun u => c.beginData.getD u []) = [] := by
    intro h
    have hz : gb = 0 := by omega
    rw [hz, List.take_zero, List.map_nil]
  have hB0 : ¬ gb < ge →
      ((sorted.take ge).drop gb).map (fun u => c.frames.getD (u - c.contextSize) []) = [] := by
    intro h
    rw [List.drop_eq_nil_of_le (by rw [List.length_take]; omega), List.map_nil]
  have hC0 : ¬ ge < sorted.length →
      (sorted.drop ge).map (fun u => c.endData.getD (u + c.contextSize - c.nData) []) = [] := by
    intro h
    rw [List.drop_eq_nil_of_le (by omega), List.map_nil]
  have hA0t : ¬ 0 < gb →
      (sorted.take gb).map (fun u => c.targets.getD u default) = [] := by
    intro h
    have hz : gb = 0 := by omega
    rw [hz, List.take_zero, List.map_nil]
  have hB0t : ¬ gb < ge →
      ((sorted.take ge).drop gb).map (fun u => c.targets.getD u default) = [] := by
    intro h
    rw [List.drop_eq_nil_of_le (by rw [List.length_take]; omega), List.map_nil]
  have hC0t : ¬ ge < sorted.length →
      (sorted.drop ge).map (fun u => c.targets.getD u default) = [] := by
    intro h
    rw [List.drop_eq_nil_of_le (by omega), List.map_nil]
  rw [vstack_of_ne_nil _ (three_guards_ne_nil _ _ _ _ _ _ hdisj),
    vstack_of_ne_nil _ (three_guards_ne_nil _ _ _ _ _ _ hdisj)]
  dsimp only
  rw [flatten_three_guards _ _ _ _ _ _ hA0 hB0 hC0,
    flatten_three_guards _ _ _ _ _ _ hA0t hB0t hC0t, hwin, htgt]
  have hrevw := revert_map_getD xs c.windowAt ([] : List γ)
  have hrevt := revert_map_getD xs c.targetAt (default : δ)
  rw [← hsorted] at hrevw hrevt
  rw [hrevw, hrevt, hxs, List.map_map, List.map_map]
  rfl

/-- C2: for every context source read from a successful construction and
every nonempty list of logical indices (any order, duplicates allowed),
the list read returns exactly the scalar-read feature and target rows of
those indices in the caller's original order: the argsort-based dispatch
into head, interior and tail partitions is inverted before returning. -/
theorem claim_c2_list_order_restored (data targets : List Int) (r : Nat)
    (start stop step : Option Nat) (c : ContextDataSource Int Int)
    (hmk : mkContextDataSource data targets r start stop step = .ok c)
    (item : List Nat) (hne : item ≠ []) :
    c.getList item = some (item.map (fun i => (c.getScalar i).1),
      item.map (fun i => (c.getScalar i).2)) := by
  obtain ⟨hstep, hcs, hnd, htg, hbd, hed, hseg, hlen⟩ :=
    mkContextDataSource_ok data targets r start stop step c hmk
  have hbl : c.beginData.length = r := by rw [hbd, mkBeginData_length]
  have hel : c.endData.length = r := by rw [hed, mkEndData_length]
  have hfr1 : 1 ≤ c.frames.length := by
    obtain ⟨hF, hfr⟩ := segmentAxis_hop_one_ok _ _ _ _ (by omega) hseg
    rw [hfr, frameList_length]
    omega
  have hn : 2 * c.contextSize + 1 ≤ c.nData := by
    rw [hcs, hnd]
    omega
  exact ctx_getList_eq_map c hn item hne

/-- C2 witness: reading [9, 0, 5, 0] (unsorted, with a duplicate) from
the scenario source returns the windows and targets of indices 9, 0, 5,
0 in exactly that order. -/
theorem claim_c2_witness :
    mkContextDataSource exSignal exSignal 2 none none (some 1) = .ok exCtx ∧
    ([9, 0, 5, 0] : List Nat) ≠ [] ∧
    exCtx.getList [9, 0, 5, 0] =
      some (([9, 0, 5, 0] : List Nat).map (fun i => (exCtx.getScalar i).1),
        ([9, 0, 5, 0] : List Nat).map (fun i => (exCtx.getScalar i).2)) ∧
    exCtx.getList [9, 0, 5, 0] =
      some ([[7, 8, 9, 0, 0], [0, 0, 0, 1, 2], [3, 4, 5, 6, 7], [0, 0, 0, 1, 2]],
        [9, 0, 5, 0]) := by
  refine ⟨by rfl, by decide, ?_, by rfl⟩
  exact claim_c2_list_order_restored exSignal exSignal 2 none none (some 1) exCtx
    (by rfl) [9, 0, 5, 0] (by decide)

end Dmgr
